import Mathlib

/-!
Shallow embedding of the request-signing, rate-limiting and
response-normalization core of the `crypto-exchange-api` client library
(`src/api.js`, `src/poloniex.js`, `src/bitfinex.js`).

Timestamps are milliseconds since the epoch, held in JavaScript numbers; we
model them as `Int`.  Rate limits are JavaScript numbers that may be
fractional (the Bitfinex default trading rate is `90 / 60 = 1.5`), so they
are modelled as `ℚ`.  Mutations of the per-instance rate windows are made
explicit: each operation returns the caller-visible array after the call.
-/

namespace Crypto

/-- Model of `Poloniex._checkRateLimit` (src/poloniex.js):

    rates.push(ts)
    rates = rates.filter((d) => d > ts - 1000)
    return rates.length <= limit

`rates.push` mutates the caller's array, but `rates.filter` builds a fresh
array that is only rebound to the local variable `rates`; the caller's array
keeps every pushed timestamp.  The first component is the returned Boolean,
the second is the caller-visible array after the call. -/
def poloCheckRateLimit (ts : Int) (limit : ℚ) (rates : List Int) : Bool × List Int :=
  let pushed := rates ++ [ts]
  let filtered := pushed.filter (fun d => decide (ts - 1000 < d))
  (decide ((filtered.length : ℚ) ≤ limit), pushed)

/-- Window update of `API._checkRateLimit` (src/api.js):

    rates.push(ts)
    let edge = rates.find((d) => ts - 1000 < d)
    if (edge) rates.splice(0, rates.indexOf(edge))

`edge` is the first element newer than the 1000 ms boundary; when it is
truthy (JavaScript: nonzero) every element before its first occurrence is
removed from the array in place.  When `edge` is the timestamp `0` the
`if (edge)` guard is falsy and nothing is spliced. -/
def apiWindow (ts : Int) (rates : List Int) : List Int :=
  let pushed := rates ++ [ts]
  match pushed.find? (fun d => decide (ts - 1000 < d)) with
  | some edge => if edge ≠ 0 then pushed.drop (pushed.indexOf edge) else pushed
  | none => pushed

/-- Model of `API._checkRateLimit` (src/api.js): after the in-place window
update the returned Boolean is `rates.length <= limit`. -/
def apiCheckRateLimit (ts : Int) (limit : ℚ) (rates : List Int) : Bool × List Int :=
  let newRates := apiWindow ts rates
  (decide ((newRates.length : ℚ) ≤ limit), newRates)

/-- A sequence of `Poloniex._checkRateLimit` calls on one client instance:
collects the returned Booleans and threads the mutated window. -/
def poloRun (limit : ℚ) : List Int → List Int → List Bool × List Int
  | [], w => ([], w)
  | ts :: tss, w =>
    let r := poloCheckRateLimit ts limit w
    let rest := poloRun limit tss r.2
    (r.1 :: rest.1, rest.2)

/-- A sequence of `API._checkRateLimit` calls on one client instance. -/
def apiRun (limit : ℚ) : List Int → List Int → List Bool × List Int
  | [], w => ([], w)
  | ts :: tss, w =>
    let r := apiCheckRateLimit ts limit w
    let rest := apiRun limit tss r.2
    (r.1 :: rest.1, rest.2)

example : apiCheckRateLimit 666 10 [555] = (true, [555, 666]) := by decide
example : apiCheckRateLimit 666 3 [444, 555] = (true, [444, 555, 666]) := by decide
example : apiCheckRateLimit 777 2 [444, 555] = (false, [444, 555, 777]) := by decide
example : apiCheckRateLimit 1445 2 [444, 555] = (true, [555, 1445]) := by decide
example : poloCheckRateLimit 1445 2 [444, 555] = (true, [444, 555, 1445]) := by decide

/-! JSON values and the two response parsers. -/

/-- JSON values as produced by `JSON.parse`. -/
inductive Json where
  | null : Json
  | bool (b : Bool) : Json
  | num (q : ℚ) : Json
  | str (s : String) : Json
  | arr (elems : List Json) : Json
  | obj (fields : List (String × Json)) : Json

/-- Whether a JSON value is `null` (property access on it throws). -/
def Json.isNull : Json → Bool
  | .null => true
  | _ => false

/-- Property access `v[name]` on a parsed JSON value: `some` when `v` is an
object carrying the field, otherwise the access yields JavaScript
`undefined`, modelled as `none`. -/
def jsonGet (name : String) : Json → Option Json
  | .obj fields => fields.lookup name
  | _ => none

/-- JavaScript truthiness of a JSON value. -/
def jsTruthy : Json → Bool
  | .null => false
  | .bool b => b
  | .num q => decide (q ≠ 0)
  | .str s => decide (s ≠ "")
  | .arr _ => true
  | .obj _ => true

/-- JavaScript truthiness of a possibly-`undefined` value. -/
def jsTruthyOpt : Option Json → Bool
  | none => false
  | some v => jsTruthy v

/-- JavaScript `String(v)` coercion of a JSON value, as used by `new Error(v)`
and template literals.  Non-integer numeric formatting is approximated; the
claims only exercise string-valued fields. -/
def jsToString : Json → String
  | .null => "null"
  | .bool true => "true"
  | .bool false => "false"
  | .num q => if q.den = 1 then toString q.num else toString q
  | .str s => s
  | .arr _ => ""
  | .obj _ => "[object Object]"

/-- An HTTP response as seen by the parsers: the status code, the raw body
text, and the outcome of `JSON.parse` on that text (`none` when the body is
not valid JSON).  `JSON.parse` itself is an external library primitive; a
body is represented together with its parse outcome. -/
structure Response where
  statusCode : Int
  data : String
  parsed : Option Json

/-- Model of `Poloniex._resParse` (src/poloniex.js):

    try { resObj = JSON.parse(response.data) }
    catch (e) { throw new Error(`HTTP ... Returned error: ` + response.data) }
    if (resObj.error) { throw new Error(`HTTP ... Returned error: ` + resObj.error) }
    return resObj

The status code is never inspected.  Reading `.error` on a parsed `null`
throws a TypeError in JavaScript, which also surfaces as a rejection. -/
def poloResParse (r : Response) : Except String Json :=
  match r.parsed with
  | none => .error ("HTTP " ++ toString r.statusCode ++ " Returned error: " ++ r.data)
  | some resObj =>
    if resObj.isNull then
      .error "TypeError: Cannot read properties of null (reading 'error')"
    else if jsTruthyOpt (jsonGet "error" resObj) then
      .error ("HTTP " ++ toString r.statusCode ++ " Returned error: " ++
        jsToString ((jsonGet "error" resObj).getD Json.null))
    else
      .ok resObj

/-- The string passed to `new Error(data.error || data.message ||
response.data)` in `API._resErrorMessage`; property access on a parsed
`null` throws a TypeError instead. -/
def errText (data : Json) (raw : String) : String :=
  match data with
  | .null => "TypeError: Cannot read properties of null (reading 'error')"
  | _ =>
    if jsTruthyOpt (jsonGet "error" data) then
      jsToString ((jsonGet "error" data).getD Json.null)
    else if jsTruthyOpt (jsonGet "message" data) then
      jsToString ((jsonGet "message" data).getD Json.null)
    else raw

/-- Model of `API._resErrorMessage` (src/api.js):

    try { data = JSON.parse(response.data) } catch (e) { data = { error: response.data } }
    if (response.statusCode > 299 || data.hasOwnProperty('error')) {
      throw new Error(data.error || data.message || response.data)
    }
    return data

Only `statusCode > 299` is checked; a status below 200 is not an error by
itself.  `hasOwnProperty` on a parsed `null` throws a TypeError (not reached
when the status check already short-circuits the disjunction). -/
def resErrorMessage (r : Response) : Except String Json :=
  let data : Json := match r.parsed with
    | some v => v
    | none => .obj [("error", .str r.data)]
  if 299 < r.statusCode then
    .error (errText data r.data)
  else if data.isNull then
    .error "TypeError: Cannot read properties of null (reading 'hasOwnProperty')"
  else if (jsonGet "error" data).isSome then
    .error (errText data r.data)
  else
    .ok data

/-- Model of `API._resJsonParse` (src/api.js): wraps any error thrown by
`_resErrorMessage` with the client name and the HTTP status code. -/
def resJsonParse (name : String) (r : Response) : Except String Json :=
  match resErrorMessage r with
  | .ok v => .ok v
  | .error m =>
    .error ("(" ++ name ++ ") HTTP " ++ toString r.statusCode ++ " Returned error: " ++ m)

example :
    poloResParse ⟨200, "\x7b\"error\":\"X\"\x7d", some (.obj [("error", .str "X")])⟩ =
      .error "HTTP 200 Returned error: X" := rfl
example :
    resErrorMessage ⟨100, "\x7b\"foo\":\"bar\"\x7d", some (.obj [("foo", .str "bar")])⟩ =
      .ok (.obj [("foo", .str "bar")]) := rfl
example :
    poloResParse ⟨404, "\x7b\"foo\":\"bar\"\x7d", some (.obj [("foo", .str "bar")])⟩ =
      .ok (.obj [("foo", .str "bar")]) := rfl
example :
    resJsonParse "bitfinex v1" ⟨503, "oops", none⟩ =
      .error "(bitfinex v1) HTTP 503 Returned error: oops" := rfl

/-! The private POST primitives: credential check, rate check, nonce. -/

/-- Failures raised by `_post` before any network activity. -/
inductive PostError where
  | missingCredentials : PostError
  | rateLimited : PostError

/-- The per-instance state of a `Poloniex` client that `_post` reads and
writes: the credentials, the configured trading rate and the trading rate
window `_tradingRateCount`.  `none` models JavaScript `undefined`. -/
structure PoloClient where
  key : Option String
  secret : Option String
  tradingRate : ℚ
  tradingRateCount : List Int

/-- Nonce computation and state effects of `Poloniex._post`
(src/poloniex.js) when the caller-observed clock reads `ts`:

    if (this.key === undefined || this.secret === undefined) throw ...
    if (!await this._checkRateLimit(ts, this.tradingRate, this._tradingRateCount)) throw ...
    let nonce = (ts * 100 - 1) + this._tradingRateCount.filter((d) => ts === d).length

The nonce filter runs over the window that `_checkRateLimit` already pushed
`ts` onto.  A successful result carries the nonce attached to the signed
request; the second component is the client state after the call. -/
def poloPost (c : PoloClient) (ts : Int) : Except PostError Int × PoloClient :=
  if c.key = none ∨ c.secret = none then
    (.error .missingCredentials, c)
  else
    let res := poloCheckRateLimit ts c.tradingRate c.tradingRateCount
    let c1 : PoloClient := { c with tradingRateCount := res.2 }
    if res.1 = false then
      (.error .rateLimited, c1)
    else
      let nonce : Int := (ts * 100 - 1) + ((res.2.filter (fun d => decide (ts = d))).length : Int)
      (.ok nonce, c1)

/-- A sequence of `Poloniex._post` calls on one client instance, at the given
clock readings; collects the results and threads the client state. -/
def poloPostRun (c : PoloClient) : List Int → List (Except PostError Int) × PoloClient
  | [] => ([], c)
  | ts :: tss =>
    let r := poloPost c ts
    let rest := poloPostRun r.2 tss
    (r.1 :: rest.1, rest.2)

/-! The Bitfinex signed request: JSON body, base64 payload, HMAC input. -/

/-- Lower-case hexadecimal digit. -/
def hexDigit (n : Nat) : Char :=
  "0123456789abcdef".toList.getD (n % 16) '0'

/-- Four-digit hexadecimal rendering used by `\u` escapes. -/
def hex4 (n : Nat) : String :=
  ⟨[hexDigit (n / 4096), hexDigit (n / 256), hexDigit (n / 16), hexDigit n]⟩

/-- How `JSON.stringify` escapes one character inside a string literal. -/
def jsonEscapeChar (c : Char) : String :=
  if c = '"' then "\\\""
  else if c = '\\' then "\\\\"
  else if c = '\x08' then "\\b"
  else if c = '\x09' then "\\t"
  else if c = '\x0a' then "\\n"
  else if c = '\x0c' then "\\f"
  else if c = '\x0d' then "\\r"
  else if c.toNat < 32 then "\\u" ++ hex4 c.toNat
  else String.singleton c

/-- String-literal escaping of `JSON.stringify`. -/
def jsonEscape (s : String) : String :=
  String.join (s.toList.map jsonEscapeChar)

/-- The Bitfinex request body
`JSON.stringify({ request: request, nonce: nonce.toString() })`. -/
def bfxBody (request : String) (nonce : Int) : String :=
  "\x7b\"request\":\"" ++ jsonEscape request ++ "\",\"nonce\":\"" ++ toString nonce ++ "\"\x7d"

/-- Standard base64 alphabet. -/
def b64Char (n : Nat) : Char :=
  "ABCDEFGHIJKLMNOPQRSTUVWXYZabcdefghijklmnopqrstuvwxyz0123456789+/".toList.getD n 'A'

/-- Base64 encoding of a byte list (values < 256), three bytes at a time,
with `=` padding, as produced by `Buffer.from(s).toString('base64')`. -/
def base64EncodeBytes : List Nat → String
  | [] => ""
  | [a] => ⟨[b64Char (a / 4), b64Char (a % 4 * 16), '=', '=']⟩
  | [a, b] => ⟨[b64Char (a / 4), b64Char (a % 4 * 16 + b / 16), b64Char (b % 16 * 4), '=']⟩
  | a :: b :: c :: rest =>
    (⟨[b64Char (a / 4), b64Char (a % 4 * 16 + b / 16), b64Char (b % 16 * 4 + c / 64),
       b64Char (c % 64)]⟩ : String) ++ base64EncodeBytes rest

/-- UTF-8 encoding of one character, as byte values. -/
def utf8Bytes (c : Char) : List Nat :=
  let n := c.toNat
  if n < 128 then [n]
  else if n < 2048 then [192 + n / 64, 128 + n % 64]
  else if n < 65536 then [224 + n / 4096, 128 + n / 64 % 64, 128 + n % 64]
  else [240 + n / 262144, 128 + n / 4096 % 64, 128 + n / 64 % 64, 128 + n % 64]

/-- Base64 encoding of the UTF-8 bytes of a string:
`Buffer.from(body).toString('base64')`. -/
def base64Encode (s : String) : String :=
  base64EncodeBytes (s.toList.map utf8Bytes).flatten

/-- The outbound request prepared by `Bitfinex._post`: the request path, the
`Content-Type` header, the transmitted body, the `X-Bfx-Payload` header, and
the key and message of the HMAC-SHA384 `X-Bfx-Signature` computation
(`crypto.createHmac('sha384', this.secret || '').update(payload)`).  The
HMAC itself is an external crypto primitive; the model records exactly what
is fed into it. -/
structure BfxRequest where
  path : String
  contentType : String
  body : String
  nonce : Int
  payload : String
  signatureKey : String
  signatureMessage : String

/-- The per-instance state of a `Bitfinex` client used by `_post`. -/
structure BfxClient where
  key : Option String
  secret : Option String
  tradingRate : ℚ
  tradingRateCount : List Int

set_option linter.unusedVariables false in
/-- Model of `Bitfinex._post` (src/bitfinex.js) at clock reading `ts`:

    if (this.key === undefined || this.secret === undefined) throw ...
    if (!await this._checkRateLimit(ts, this.tradingRate, this._tradingRateCount)) throw ...
    let nonce = (ts * 100 - 1) + this._tradingRateCount.filter((d) => ts === d).length
    let body = JSON.stringify({ request: this.endpointPath + path, nonce: nonce.toString() })
    let payload = Buffer.from(body).toString('base64')

The caller-supplied `query` parameter is accepted but never read when the
body, payload and signature are built (the `querystring.stringify` variant
is commented out in the source); the `Content-Type` header is the literal
`application/x-www-form-urlencoded` although the body is JSON. -/
def bitfinexPost (c : BfxClient) (endpointPath path : String)
    (query : List (String × String)) (ts : Int) :
    Except PostError BfxRequest × BfxClient :=
  if c.key = none ∨ c.secret = none then
    (.error .missingCredentials, c)
  else
    let res := apiCheckRateLimit ts c.tradingRate c.tradingRateCount
    let c1 : BfxClient := { c with tradingRateCount := res.2 }
    if res.1 = false then
      (.error .rateLimited, c1)
    else
      let nonce : Int := (ts * 100 - 1) + ((res.2.filter (fun d => decide (ts = d))).length : Int)
      let body := bfxBody (endpointPath ++ path) nonce
      let payload := base64Encode body
      (.ok { path := endpointPath ++ path,
             contentType := "application/x-www-form-urlencoded",
             body := body,
             nonce := nonce,
             payload := payload,
             signatureKey := c.secret.getD "",
             signatureMessage := payload }, c1)

example : base64Encode "Man" = "TWFu" := rfl
example : base64Encode "Ma" = "TWE=" := rfl
example : base64Encode "M" = "TQ==" := rfl
example : bfxBody "/v1/balances" 100000 =
    "\x7b\"request\":\"/v1/balances\",\"nonce\":\"100000\"\x7d" := rfl
example : (poloPost ⟨some "k", some "s", 6, []⟩ 1000).1 = .ok 100000 := rfl
example : (poloPost ⟨some "k", some "s", 6, [1000]⟩ 1000).1 = .ok 100001 := rfl

/-! Lemmas about the window update of `API._checkRateLimit`. -/

/-- Unfolding of `apiWindow` with the pushed array written out. -/
theorem apiWindow_def (ts : Int) (rates : List Int) :
    apiWindow ts rates =
      match (rates ++ [ts]).find? (fun d => decide (ts - 1000 < d)) with
      | some edge =>
        if edge ≠ 0 then (rates ++ [ts]).drop ((rates ++ [ts]).indexOf edge)
        else rates ++ [ts]
      | none => rates ++ [ts] := rfl

/-- Dropping everything before the first occurrence of the element that
`find?` returns is dropping the longest prefix of elements failing the
predicate. -/
theorem drop_indexOf_find? (pr : Int → Bool) :
    ∀ (l : List Int) (e : Int), l.find? pr = some e →
      l.drop (l.indexOf e) = l.dropWhile (fun x => !pr x)
  | [], e, h => by simp at h
  | a :: l, e, h => by
    by_cases hpa : pr a = true
    · rw [List.find?_cons_of_pos _ hpa] at h
      injection h with h
      subst h
      rw [List.indexOf_cons_self, List.dropWhile_cons]
      simp [hpa]
    · rw [List.find?_cons_of_neg _ hpa] at h
      have hne : a ≠ e := fun hae => hpa (hae ▸ List.find?_some h)
      rw [List.indexOf_cons_ne _ hne, List.dropWhile_cons]
      have hnp : (!pr a) = true := by
        rw [Bool.not_eq_true']
        exact Bool.eq_false_iff.mpr hpa
      rw [if_pos hnp]
      exact drop_indexOf_find? pr l e h

/-- Dropping a prefix of elements failing `pr` does not change the result of
filtering by any predicate `q` at least as strong as `pr`. -/
theorem filter_dropWhile_not (pr q : Int → Bool) (himp : ∀ x, q x = true → pr x = true) :
    ∀ l : List Int, (l.dropWhile (fun x => !pr x)).filter q = l.filter q
  | [] => rfl
  | a :: l => by
    rw [List.dropWhile_cons]
    by_cases hpa : pr a = true
    · simp [hpa]
    · have hqa : ¬q a = true := fun hq => hpa (himp a hq)
      have hnp : (!pr a) = true := by
        rw [Bool.not_eq_true']
        exact Bool.eq_false_iff.mpr hpa
      rw [if_pos hnp, filter_dropWhile_not pr q himp l, List.filter_cons_of_neg hqa]

/-- The pushed timestamp always satisfies the recency predicate, so `find?`
over the pushed array cannot fail. -/
theorem find?_pushed_ne_none (ts : Int) (rates : List Int) :
    (rates ++ [ts]).find? (fun d => decide (ts - 1000 < d)) ≠ none := by
  intro h
  have hts := List.find?_eq_none.mp h ts (by simp)
  simp only [decide_eq_true_eq] at hts
  omega

/-- Filtering by a predicate at least as strong as the recency predicate
commutes with the in-place update: the update only ever removes expired
entries. -/
theorem apiWindow_filter (ts : Int) (rates : List Int) (q : Int → Bool)
    (himp : ∀ x, q x = true → decide (ts - 1000 < x) = true) :
    (apiWindow ts rates).filter q = (rates ++ [ts]).filter q := by
  rw [apiWindow_def]
  cases hf : (rates ++ [ts]).find? (fun d => decide (ts - 1000 < d)) with
  | none => rfl
  | some e =>
    by_cases he : e = 0
    · simp [he]
    · simp only [ne_eq, he, not_false_eq_true, if_pos]
      rw [drop_indexOf_find? _ _ _ hf]
      exact filter_dropWhile_not _ q himp _

/-- A recent element of the pushed array survives the in-place update. -/
theorem mem_apiWindow (ts x : Int) (rates : List Int)
    (hx : x ∈ rates ++ [ts]) (hrec : ts - 1000 < x) : x ∈ apiWindow ts rates := by
  have h1 : x ∈ (rates ++ [ts]).filter (fun d => decide (ts - 1000 < d)) :=
    List.mem_filter.mpr ⟨hx, by simpa⟩
  rw [← apiWindow_filter ts rates _ (fun y hy => hy)] at h1
  exact (List.mem_filter.mp h1).1

/-- With non-negative entries the truthiness corner case of `if (edge)` is
harmless and the in-place update drops exactly the longest expired prefix. -/
theorem apiWindow_eq_dropWhile (ts : Int) (rates : List Int)
    (hnn : ∀ x ∈ rates, 0 ≤ x) :
    apiWindow ts rates =
      (rates ++ [ts]).dropWhile (fun x => !decide (ts - 1000 < x)) := by
  rw [apiWindow_def]
  cases hf : (rates ++ [ts]).find? (fun d => decide (ts - 1000 < d)) with
  | none => exact absurd hf (find?_pushed_ne_none ts rates)
  | some e =>
    by_cases he : e = 0
    · subst he
      have hts : ts < 1000 := by
        have h0 := List.find?_some hf
        simp only [decide_eq_true_eq] at h0
        omega
      have hall : ∀ x ∈ rates ++ [ts], (!decide (ts - 1000 < x)) = false := by
        intro x hx
        rw [Bool.not_eq_false', decide_eq_true_eq]
        rcases List.mem_append.mp hx with hxr | hxt
        · have := hnn x hxr
          omega
        · simp only [List.mem_singleton] at hxt
          subst hxt
          omega
      have hdw : (rates ++ [ts]).dropWhile (fun x => !decide (ts - 1000 < x)) =
          rates ++ [ts] := by
        cases hps : rates ++ [ts] with
        | nil => rfl
        | cons a l =>
          have ha := hall a (by rw [hps]; exact List.mem_cons_self a l)
          rw [List.dropWhile_cons, if_neg (by rw [ha]; simp)]
      rw [hdw]
      simp
    · simp only [ne_eq, he, not_false_eq_true, if_pos]
      exact drop_indexOf_find? _ _ _ hf

/-- On a non-decreasing window, dropping the longest expired prefix is
exactly filtering out every expired entry. -/
theorem dropWhile_eq_filter_of_sorted (ts : Int) :
    ∀ w : List Int, w.Sorted (· ≤ ·) →
      (w ++ [ts]).dropWhile (fun x => !decide (ts - 1000 < x)) =
        w.filter (fun d => decide (ts - 1000 < d)) ++ [ts]
  | [], _ => by
    have hts : (!decide (ts - 1000 < ts)) = false := by
      rw [Bool.not_eq_false', decide_eq_true_eq]
      omega
    simp only [List.nil_append, List.dropWhile_cons, List.dropWhile_nil, List.filter_nil, hts]
    simp
  | a :: w, h => by
    rcases List.sorted_cons.mp h with ⟨ha, hw⟩
    rw [List.cons_append, List.dropWhile_cons]
    by_cases hpa : ts - 1000 < a
    · rw [if_neg (by simp [hpa])]
      rw [List.filter_cons_of_pos (by simp [hpa])]
      have hfw : w.filter (fun d => decide (ts - 1000 < d)) = w :=
        List.filter_eq_self.mpr (fun b hb => by
          have := ha b hb
          simp only [decide_eq_true_eq]
          omega)
      rw [hfw, List.cons_append]
    · rw [if_pos (by simp [hpa])]
      rw [dropWhile_eq_filter_of_sorted ts w hw]
      rw [List.filter_cons_of_neg (by simp [hpa])]

/-- On a non-decreasing window of non-negative timestamps the in-place
update of `API._checkRateLimit` leaves exactly the unexpired prior entries
followed by the pushed timestamp. -/
theorem apiWindow_sorted (ts : Int) (rates : List Int)
    (hs : rates.Sorted (· ≤ ·)) (hnn : ∀ x ∈ rates, 0 ≤ x) :
    apiWindow ts rates = rates.filter (fun d => decide (ts - 1000 < d)) ++ [ts] := by
  rw [apiWindow_eq_dropWhile ts rates hnn, dropWhile_eq_filter_of_sorted ts rates hs]

/-- C2, counterexample: `Poloniex._checkRateLimit` does not evict expired
entries from the caller's window.  With prior window `[1]` and timestamp
`5000`, the claim says the window afterwards is exactly `[5000]` (the entry
`1` is expired), but the code leaves `[1, 5000]`. -/
theorem poloCheckRateLimit_no_inplace_eviction :
    (poloCheckRateLimit 5000 6 [1]).2 ≠
      ([1] : List Int).filter (fun d => decide ((5000 : Int) - 1000 < d)) ++ [5000] := by
  decide

/-- C2 (amended): the two implementations update the window differently.
`Poloniex._checkRateLimit` appends the timestamp but performs no in-place
eviction — the filtered copy only determines the returned Boolean — while
`API._checkRateLimit` (used by the Bitfinex clients), on a non-decreasing
window of non-negative timestamps, leaves exactly the prior entries `d` with
`d > ts - 1000` followed by `ts`, so there every entry is within 1000 ms of
the latest inserted timestamp. -/
theorem checkRateLimit_window_update_shapes (ts : Int) (limit : ℚ) (rates : List Int) :
    (poloCheckRateLimit ts limit rates).2 = rates ++ [ts] ∧
    (rates.Sorted (· ≤ ·) → (∀ x ∈ rates, 0 ≤ x) →
      (apiCheckRateLimit ts limit rates).2 =
        rates.filter (fun d => decide (ts - 1000 < d)) ++ [ts]) := by
  constructor
  · rfl
  · intro hs hnn
    exact apiWindow_sorted ts rates hs hnn

/-- Witness for `checkRateLimit_window_update_shapes` at a concrete sorted
non-negative window. -/
theorem checkRateLimit_window_update_shapes_witness :
    (apiCheckRateLimit 1445 2 [444, 555]).2 =
      ([444, 555] : List Int).filter (fun d => decide ((1445 : Int) - 1000 < d)) ++ [1445] :=
  (checkRateLimit_window_update_shapes 1445 2 [444, 555]).2
    (by decide) (by decide)

/-- The in-place update never touches entries carrying the pushed timestamp
itself, so the count of same-millisecond entries grows by exactly one. -/
theorem apiWindow_filter_same (ts : Int) (rates : List Int) :
    ((apiWindow ts rates).filter (fun d => decide (ts = d))).length
      = (rates.filter (fun d => decide (ts = d))).length + 1 := by
  rw [apiWindow_filter ts rates _ (fun x hx => by
    simp only [decide_eq_true_eq] at hx ⊢
    omega)]
  rw [List.filter_append]
  simp

/-- C4 (confirmed): an admitted `_post` call at millisecond timestamp `ts`
uses the nonce `ts * 100 + k`, where `k` is the number of invocations with
the exact timestamp `ts` recorded in the trading rate window before the
call; this holds for both the Poloniex and the Bitfinex client. -/
theorem post_nonce_formula :
    (∀ (c : PoloClient) (ts n : Int) (c' : PoloClient),
       poloPost c ts = (.ok n, c') →
       n = ts * 100 + ((c.tradingRateCount.filter (fun d => decide (ts = d))).length : Int)) ∧
    (∀ (c : BfxClient) (ep pa : String) (q : List (String × String)) (ts : Int)
       (req : BfxRequest) (c' : BfxClient),
       bitfinexPost c ep pa q ts = (.ok req, c') →
       req.nonce = ts * 100 + ((c.tradingRateCount.filter (fun d => decide (ts = d))).length : Int)) := by
  constructor
  · intro c ts n c' h
    simp only [poloPost] at h
    split at h
    · injection h with h1 h2
      exact Except.noConfusion h1
    · split at h
      · injection h with h1 h2
        exact Except.noConfusion h1
      · injection h with h1 h2
        injection h1 with h1
        rw [← h1]
        show ts * 100 - 1 +
            (((c.tradingRateCount ++ [ts]).filter (fun d => decide (ts = d))).length : Int) = _
        rw [List.filter_append]
        have hft : List.filter (fun d => decide (ts = d)) [ts] = [ts] := by simp
        rw [hft, List.length_append]
        push_cast
        simp
  · intro c ep pa q ts req c' h
    simp only [bitfinexPost] at h
    split at h
    · injection h with h1 h2
      exact Except.noConfusion h1
    · split at h
      · injection h with h1 h2
        exact Except.noConfusion h1
      · injection h with h1 h2
        injection h1 with h1
        rw [← h1]
        show ts * 100 - 1 +
            (((apiWindow ts c.tradingRateCount).filter (fun d => decide (ts = d))).length : Int) = _
        rw [apiWindow_filter_same]
        push_cast
        ring

/-- Witness for `post_nonce_formula`: a second call in the same millisecond
(prior window `[1000, 500]`) is admitted and gets nonce
`1000 * 100 + 1 = 100001`. -/
theorem post_nonce_formula_witness :
    poloPost ⟨some "k", some "s", 6, [1000, 500]⟩ 1000 =
      (.ok 100001, ⟨some "k", some "s", 6, [1000, 500, 1000]⟩) ∧
    (100001 : Int) = 1000 * 100 +
      ((([1000, 500] : List Int).filter (fun d => decide ((1000 : Int) = d))).length : Int) :=
  ⟨rfl, post_nonce_formula.1 ⟨some "k", some "s", 6, [1000, 500]⟩ 1000 100001
    ⟨some "k", some "s", 6, [1000, 500, 1000]⟩ rfl⟩

/-- C6 (confirmed): a private `_post` call on a client missing the key or
the secret fails with the missing-credentials error and leaves the client
state — in particular the trading rate window — completely unchanged; the
credential check precedes the rate-limit check. -/
theorem post_missing_credentials :
    (∀ (c : PoloClient) (ts : Int), c.key = none ∨ c.secret = none →
        poloPost c ts = (.error .missingCredentials, c)) ∧
    (∀ (c : BfxClient) (ep pa : String) (q : List (String × String)) (ts : Int),
        c.key = none ∨ c.secret = none →
        bitfinexPost c ep pa q ts = (.error .missingCredentials, c)) := by
  constructor
  · intro c ts h
    unfold poloPost
    rw [if_pos h]
  · intro c ep pa q ts h
    unfold bitfinexPost
    rw [if_pos h]

/-- Witness for `post_missing_credentials`: a keyless Poloniex client with a
non-empty trading window rejects without touching the window. -/
theorem post_missing_credentials_witness :
    poloPost ⟨none, some "s", 6, [7]⟩ 42 = (.error .missingCredentials, ⟨none, some "s", 6, [7]⟩) :=
  post_missing_credentials.1 ⟨none, some "s", 6, [7]⟩ 42 (Or.inl rfl)

/-- The window of a sequence of Poloniex checks accumulates every timestamp. -/
theorem poloRun_window (limit : ℚ) :
    ∀ (tss w : List Int), (poloRun limit tss w).2 = w ++ tss
  | [], w => by simp [poloRun]
  | ts :: tss, w => by
    show (poloRun limit tss (w ++ [ts])).2 = w ++ ts :: tss
    rw [poloRun_window limit tss (w ++ [ts]), List.append_assoc]
    rfl

/-- A recorded timestamp survives any sequence of `API._checkRateLimit`
calls whose timestamps are all within 1000 ms of it. -/
theorem mem_apiRun (limit : ℚ) (x : Int) :
    ∀ (further w : List Int), x ∈ w → (∀ t' ∈ further, t' - x < 1000) →
      x ∈ (apiRun limit further w).2
  | [], w, hw, _ => hw
  | t' :: rest, w, hw, hall => by
    show x ∈ (apiRun limit rest (apiWindow t' w)).2
    refine mem_apiRun limit x rest (apiWindow t' w) ?_ ?_
    · refine mem_apiWindow t' x w (List.mem_append_left _ hw) ?_
      have := hall t' (List.mem_cons_self t' rest)
      omega
    · exact fun u hu => hall u (List.mem_cons_of_mem t' hu)

/-- C7 (confirmed): when `_checkRateLimit` rejects an attempt at timestamp
`ts`, the timestamp has nevertheless been recorded in the window, it
survives any further checks made within 1000 ms of it, and it belongs to
the list whose length every such capacity check compares against the limit
— rejected attempts consume window slots exactly like admitted ones. -/
theorem checkRateLimit_records_rejected_attempts :
    (∀ (ts : Int) (limit : ℚ) (w : List Int),
       (poloCheckRateLimit ts limit w).1 = false →
       ts ∈ (poloCheckRateLimit ts limit w).2 ∧
       (∀ further : List Int, (∀ t' ∈ further, t' - ts < 1000) →
          ts ∈ (poloRun limit further (poloCheckRateLimit ts limit w).2).2 ∧
          (∀ t' : Int, t' - ts < 1000 →
             ts ∈ ((poloRun limit further (poloCheckRateLimit ts limit w).2).2
                     ++ [t']).filter (fun d => decide (t' - 1000 < d))))) ∧
    (∀ (ts : Int) (limit : ℚ) (w : List Int),
       (apiCheckRateLimit ts limit w).1 = false →
       ts ∈ (apiCheckRateLimit ts limit w).2 ∧
       (∀ further : List Int, (∀ t' ∈ further, t' - ts < 1000) →
          ts ∈ (apiRun limit further (apiCheckRateLimit ts limit w).2).2)) := by
  constructor
  · intro ts limit w _
    have hmem : ts ∈ (poloCheckRateLimit ts limit w).2 := by
      show ts ∈ w ++ [ts]
      simp
    refine ⟨hmem, ?_⟩
    intro further hall
    have hrunmem : ts ∈ (poloRun limit further (poloCheckRateLimit ts limit w).2).2 := by
      rw [poloRun_window]
      exact List.mem_append_left _ hmem
    refine ⟨hrunmem, ?_⟩
    intro t' ht'
    refine List.mem_filter.mpr ⟨List.mem_append_left _ hrunmem, ?_⟩
    simp only [decide_eq_true_eq]
    omega
  · intro ts limit w _
    have hmem : ts ∈ (apiCheckRateLimit ts limit w).2 := by
      show ts ∈ apiWindow ts w
      refine mem_apiWindow ts ts w (by simp) (by omega)
    refine ⟨hmem, ?_⟩
    intro further hall
    exact mem_apiRun limit ts further _ hmem hall

/-- Witness for `checkRateLimit_records_rejected_attempts`: both limiters
reject a third call at `777` under limit 2, yet record it; the Poloniex
window then counts it at a check at `800`, and it is still in the Bitfinex
window after a further check at `800`. -/
theorem checkRateLimit_records_rejected_attempts_witness :
    (poloCheckRateLimit 777 2 [444, 555]).1 = false ∧
    777 ∈ (poloCheckRateLimit 777 2 [444, 555]).2 ∧
    777 ∈ ((poloRun 2 [] (poloCheckRateLimit 777 2 [444, 555]).2).2
            ++ [800]).filter (fun d => decide ((800 : Int) - 1000 < d)) ∧
    (apiCheckRateLimit 777 2 [444, 555]).1 = false ∧
    777 ∈ (apiRun 2 [800] (apiCheckRateLimit 777 2 [444, 555]).2).2 := by
  have hp := (checkRateLimit_records_rejected_attempts.1 777 2 [444, 555]) (by decide)
  have ha := (checkRateLimit_records_rejected_attempts.2 777 2 [444, 555]) (by decide)
  refine ⟨by decide, hp.1, (hp.2 [] (by decide)).2 800 (by decide), by decide, ?_⟩
  exact ha.2 [800] (by decide)

/-- C1 (code bug): the nonce is derived from the caller-observed clock as
`ts * 100 - 1` plus the same-millisecond count, with no memory of the last
issued nonce, so a backwards clock step makes the nonce decrease: two calls
at clock readings 1000 then 999 produce nonces 100000 then 99900, although
both the specification and the source comment (`unique nonce ever
increasing never decreasing`) require strict increase. -/
theorem poloPost_nonce_decreases_under_clock_skew :
    (poloPostRun ⟨some "k", some "s", 6, []⟩ [1000, 999]).1 = [.ok 100000, .ok 99900] ∧
    (99900 : Int) < 100000 := ⟨rfl, by decide⟩

/-! Burst admission: within one 1000 ms span nothing is ever evicted, so
each check simply counts the calls made so far. -/

/-- Comparing a natural window length against a natural limit through the
rational-number comparison of the JavaScript code. -/
theorem decide_cast_le (n m : ℕ) : decide ((n : ℚ) ≤ (m : ℚ)) = decide (n ≤ m) :=
  decide_eq_decide.mpr Nat.cast_le

/-- When every stored entry is within 1000 ms of the pushed timestamp, the
in-place update of `API._checkRateLimit` evicts nothing. -/
theorem apiWindow_eq_pushed (ts : Int) (rates : List Int)
    (hall : ∀ x ∈ rates, ts - 1000 < x) : apiWindow ts rates = rates ++ [ts] := by
  rw [apiWindow_def]
  cases hf : (rates ++ [ts]).find? (fun d => decide (ts - 1000 < d)) with
  | none => rfl
  | some e =>
    by_cases he : e = 0
    · simp [he]
    · simp only [ne_eq, he, not_false_eq_true, if_pos]
      cases rates with
      | nil =>
        simp only [List.nil_append] at hf ⊢
        have hpt : decide (ts - 1000 < ts) = true := by
          simp only [decide_eq_true_eq]
          omega
        have hfa : ([ts] : List Int).find? (fun d => decide (ts - 1000 < d)) = some ts := by
          simp only [List.find?, hpt]
        rw [hfa] at hf
        injection hf with hf
        subst hf
        rw [List.indexOf_cons_self]
        rfl
      | cons a l =>
        have hpa : decide (ts - 1000 < a) = true := by
          simp only [decide_eq_true_eq]
          exact hall a (List.mem_cons_self a l)
        have hfa : ((a :: l ++ [ts]) : List Int).find? (fun d => decide (ts - 1000 < d))
            = some a := by
          rw [List.cons_append]
          simp only [List.find?, hpa]
        rw [hfa] at hf
        injection hf with hf
        subst hf
        rw [List.cons_append, List.indexOf_cons_self]
        rfl

/-- Burst core for `Poloniex._checkRateLimit`: starting from a window of
`w.length ≤ m` calls, with every involved timestamp within 1000 ms of every
other and `m + 1` calls in total, the remaining calls are admitted until the
window holds `m` entries and the final call is rejected. -/
theorem poloRun_burst (m : ℕ) :
    ∀ (tss w : List Int),
      (∀ x ∈ w ++ tss, ∀ y ∈ w ++ tss, x - y < 1000) →
      w.length ≤ m →
      w.length + tss.length = m + 1 →
      (poloRun (m : ℚ) tss w).1 = List.replicate (m - w.length) true ++ [false]
  | [], w, _, hw, hlen => by
    simp only [List.length_nil] at hlen
    omega
  | t :: rest, w, hspan, hw, hlen => by
    have hmem_t : t ∈ w ++ t :: rest := by simp
    have hfilter : (w ++ [t]).filter (fun d => decide (t - 1000 < d)) = w ++ [t] := by
      refine List.filter_eq_self.mpr ?_
      intro b hb
      simp only [decide_eq_true_eq]
      rcases List.mem_append.mp hb with hbw | hbt
      · have := hspan t hmem_t b (List.mem_append_left _ hbw)
        omega
      · simp only [List.mem_singleton] at hbt
        subst hbt
        omega
    have hstep : (poloRun (m : ℚ) (t :: rest) w).1 =
        (poloCheckRateLimit t (m : ℚ) w).1 :: (poloRun (m : ℚ) rest (w ++ [t])).1 := rfl
    have hdec : (poloCheckRateLimit t (m : ℚ) w).1 = decide (w.length + 1 ≤ m) := by
      show decide ((((w ++ [t]).filter (fun d => decide (t - 1000 < d))).length : ℚ) ≤ (m : ℚ)) = _
      rw [hfilter, List.length_append, List.length_singleton, decide_cast_le]
    have hspan' : ∀ x ∈ (w ++ [t]) ++ rest, ∀ y ∈ (w ++ [t]) ++ rest, x - y < 1000 := by
      rw [List.append_assoc]
      exact hspan
    rw [hstep, hdec]
    by_cases hlt : w.length < m
    · rw [poloRun_burst m rest (w ++ [t]) hspan'
        (by simp only [List.length_append, List.length_singleton]; omega)
        (by simp only [List.length_append, List.length_singleton, List.length_nil,
              List.length_cons] at hlen ⊢; omega)]
      rw [decide_eq_true (by omega : w.length + 1 ≤ m)]
      rw [List.length_append, List.length_singleton]
      rw [show m - w.length = (m - (w.length + 1)) + 1 from by omega, List.replicate_succ]
      rfl
    · have hwm : w.length = m := by omega
      have hrest : rest = [] := by
        rw [← List.length_eq_zero]
        simp only [List.length_cons] at hlen
        omega
      subst hrest
      rw [decide_eq_false (by omega : ¬(w.length + 1 ≤ m))]
      rw [hwm]
      simp [poloRun]

/-- Burst core for `API._checkRateLimit`: identical admission behaviour,
since within the span nothing is evicted. -/
theorem apiRun_burst (m : ℕ) :
    ∀ (tss w : List Int),
      (∀ x ∈ w ++ tss, ∀ y ∈ w ++ tss, x - y < 1000) →
      w.length ≤ m →
      w.length + tss.length = m + 1 →
      (apiRun (m : ℚ) tss w).1 = List.replicate (m - w.length) true ++ [false]
  | [], w, _, hw, hlen => by
    simp only [List.length_nil] at hlen
    omega
  | t :: rest, w, hspan, hw, hlen => by
    have hmem_t : t ∈ w ++ t :: rest := by simp
    have hallw : ∀ x ∈ w, t - 1000 < x := by
      intro x hx
      have := hspan t hmem_t x (List.mem_append_left _ hx)
      omega
    have hwindow : apiWindow t w = w ++ [t] := apiWindow_eq_pushed t w hallw
    have hstep : (apiRun (m : ℚ) (t :: rest) w).1 =
        (apiCheckRateLimit t (m : ℚ) w).1 :: (apiRun (m : ℚ) rest (apiWindow t w)).1 := rfl
    have hdec : (apiCheckRateLimit t (m : ℚ) w).1 = decide (w.length + 1 ≤ m) := by
      show decide (((apiWindow t w).length : ℚ) ≤ (m : ℚ)) = _
      rw [hwindow, List.length_append, List.length_singleton, decide_cast_le]
    have hspan' : ∀ x ∈ (w ++ [t]) ++ rest, ∀ y ∈ (w ++ [t]) ++ rest, x - y < 1000 := by
      rw [List.append_assoc]
      exact hspan
    rw [hstep, hdec, hwindow]
    by_cases hlt : w.length < m
    · rw [apiRun_burst m rest (w ++ [t]) hspan'
        (by simp only [List.length_append, List.length_singleton]; omega)
        (by simp only [List.length_append, List.length_singleton, List.length_nil,
              List.length_cons] at hlen ⊢; omega)]
      rw [decide_eq_true (by omega : w.length + 1 ≤ m)]
      rw [List.length_append, List.length_singleton]
      rw [show m - w.length = (m - (w.length + 1)) + 1 from by omega, List.replicate_succ]
      rfl
    · have hwm : w.length = m := by omega
      have hrest : rest = [] := by
        rw [← List.length_eq_zero]
        simp only [List.length_cons] at hlen
        omega
      subst hrest
      rw [decide_eq_false (by omega : ¬(w.length + 1 ≤ m))]
      rw [hwm]
      simp [apiRun]

/-- Splitting a sequence of Poloniex checks. -/
theorem poloRun_append (limit : ℚ) :
    ∀ (l1 l2 w : List Int),
      poloRun limit (l1 ++ l2) w =
        ((poloRun limit l1 w).1 ++ (poloRun limit l2 (poloRun limit l1 w).2).1,
         (poloRun limit l2 (poloRun limit l1 w).2).2)
  | [], l2, w => by simp [poloRun]
  | t :: l1, l2, w => by
    simp only [List.cons_append, poloRun, List.append_eq]
    rw [poloRun_append limit l1 l2 (poloCheckRateLimit t limit w).2]

/-- Splitting a sequence of API checks. -/
theorem apiRun_append (limit : ℚ) :
    ∀ (l1 l2 w : List Int),
      apiRun limit (l1 ++ l2) w =
        ((apiRun limit l1 w).1 ++ (apiRun limit l2 (apiRun limit l1 w).2).1,
         (apiRun limit l2 (apiRun limit l1 w).2).2)
  | [], l2, w => by simp [apiRun]
  | t :: l1, l2, w => by
    simp only [List.cons_append, apiRun, List.append_eq]
    rw [apiRun_append limit l1 l2 (apiCheckRateLimit t limit w).2]

/-- One decision per call. -/
theorem poloRun_length (limit : ℚ) :
    ∀ (tss w : List Int), (poloRun limit tss w).1.length = tss.length
  | [], _ => rfl
  | t :: tss, w => by
    simp only [poloRun, List.length_cons]
    rw [poloRun_length limit tss]

/-- One decision per call. -/
theorem apiRun_length (limit : ℚ) :
    ∀ (tss w : List Int), (apiRun limit tss w).1.length = tss.length
  | [], _ => rfl
  | t :: tss, w => by
    simp only [apiRun, List.length_cons]
    rw [apiRun_length limit tss]

/-- C5 (confirmed): for every positive limit `m` and every non-decreasing
sequence of more than `m` timestamps all within one 1000 ms span, applied to
an initially empty window, the first `m` checks return `true` and the
`(m+1)`-th returns `false` — in both implementations. -/
theorem checkRateLimit_burst_admission (m : ℕ) (_hm : 0 < m) (tss : List Int)
    (hN : m < tss.length)
    (_hchain : tss.Sorted (· ≤ ·))
    (hspan : ∀ x ∈ tss, ∀ y ∈ tss, x - y < 1000) :
    (poloRun (m : ℚ) tss []).1.take (m + 1) = List.replicate m true ++ [false] ∧
    (apiRun (m : ℚ) tss []).1.take (m + 1) = List.replicate m true ++ [false] := by
  have hsplit : tss.take (m + 1) ++ tss.drop (m + 1) = tss := List.take_append_drop _ _
  have hlen1 : (tss.take (m + 1)).length = m + 1 := by
    rw [List.length_take]
    exact min_eq_left (by omega)
  have hspan' : ∀ x ∈ ([] : List Int) ++ tss.take (m + 1),
      ∀ y ∈ ([] : List Int) ++ tss.take (m + 1), x - y < 1000 := by
    intro x hx y hy
    simp only [List.nil_append] at hx hy
    exact hspan x (List.mem_of_mem_take hx) y (List.mem_of_mem_take hy)
  constructor
  · have hb := poloRun_burst m (tss.take (m + 1)) [] hspan' (by simp)
      (by simp [hlen1])
    conv_lhs => rw [← hsplit]
    rw [poloRun_append]
    show ((poloRun (m : ℚ) (tss.take (m + 1)) []).1 ++ _).take (m + 1) = _
    rw [List.take_left' (by rw [poloRun_length, hlen1])]
    simpa using hb
  · have hb := apiRun_burst m (tss.take (m + 1)) [] hspan' (by simp)
      (by simp [hlen1])
    conv_lhs => rw [← hsplit]
    rw [apiRun_append]
    show ((apiRun (m : ℚ) (tss.take (m + 1)) []).1 ++ _).take (m + 1) = _
    rw [List.take_left' (by rw [apiRun_length, hlen1])]
    simpa using hb

/-- Witness for `checkRateLimit_burst_admission`: limit 2, three calls at
`10, 20, 30` milliseconds — admitted, admitted, rejected. -/
theorem checkRateLimit_burst_admission_witness :
    (poloRun ((2 : ℕ) : ℚ) [10, 20, 30] []).1.take 3 = [true, true, false] ∧
    (apiRun ((2 : ℕ) : ℚ) [10, 20, 30] []).1.take 3 = [true, true, false] :=
  checkRateLimit_burst_admission 2 (by decide) [10, 20, 30] (by decide)
    (by decide) (by decide)

/-! Steady-state admission: timestamps spaced at least `1000 / limit`
milliseconds apart.  For integer-valued timestamps the spacing bound is
`limit * (f (i+1) - f i) ≥ 1000`. -/

/-- Telescoped spacing bound. -/
theorem steady_tele (m : ℕ) (f : ℕ → ℤ)
    (hs : ∀ i, 1000 ≤ (m : ℤ) * (f (i + 1) - f i)) :
    ∀ (d i : ℕ), (d : ℤ) * 1000 ≤ (m : ℤ) * (f (i + d) - f i)
  | 0, i => by simp
  | d + 1, i => by
    have h1 := steady_tele m f hs d i
    have h2 := hs (i + d)
    have hidx : i + (d + 1) = (i + d) + 1 := by omega
    rw [hidx]
    calc ((d : ℤ) + 1) * 1000 = (d : ℤ) * 1000 + 1000 := by ring
      _ ≤ (m : ℤ) * (f (i + d) - f i) + (m : ℤ) * (f ((i + d) + 1) - f (i + d)) :=
          add_le_add h1 h2
      _ = (m : ℤ) * (f ((i + d) + 1) - f i) := by ring

/-- The spacing bound forces the timestamps to be monotone. -/
theorem steady_mono (m : ℕ) (hm : 0 < m) (f : ℕ → ℤ)
    (hs : ∀ i, 1000 ≤ (m : ℤ) * (f (i + 1) - f i)) :
    ∀ i j : ℕ, i ≤ j → f i ≤ f j := by
  intro i j hij
  obtain ⟨d, rfl⟩ : ∃ d, j = i + d := ⟨j - i, by omega⟩
  have h := steady_tele m f hs d i
  have hd : (0 : ℤ) ≤ (d : ℤ) * 1000 := by positivity
  have hm' : (0 : ℤ) < (m : ℤ) := by exact_mod_cast hm
  have hx : (m : ℤ) * 0 ≤ (m : ℤ) * (f (i + d) - f i) := by
    rw [mul_zero]
    exact le_trans hd h
  have := (mul_le_mul_left hm').mp hx
  omega

/-- At most `m` of the first `k + 1` timestamps are within 1000 ms of the
`k`-th one. -/
theorem steady_count (m : ℕ) (hm : 0 < m) (f : ℕ → ℤ)
    (hs : ∀ i, 1000 ≤ (m : ℤ) * (f (i + 1) - f i)) (k : ℕ) :
    (((List.range (k + 1)).map f).filter (fun d => decide (f k - 1000 < d))).length ≤ m := by
  by_cases hk : k + 1 ≤ m
  · calc (((List.range (k + 1)).map f).filter (fun d => decide (f k - 1000 < d))).length
        ≤ ((List.range (k + 1)).map f).length := List.length_filter_le _ _
      _ = k + 1 := by simp
      _ ≤ m := hk
  · have hsplit : k + 1 = (k + 1 - m) + m := by omega
    rw [hsplit, List.range_add, List.map_append, List.filter_append, List.length_append]
    have h1 : ((List.range (k + 1 - m)).map f).filter (fun d => decide (f k - 1000 < d)) = [] := by
      rw [List.filter_eq_nil_iff]
      intro a ha
      rw [List.mem_map] at ha
      obtain ⟨i, hi, rfl⟩ := ha
      rw [List.mem_range] at hi
      simp only [decide_eq_true_eq, not_lt]
      have hd := steady_tele m f hs (k - i) i
      rw [show i + (k - i) = k from by omega] at hd
      have hki : (m : ℤ) ≤ ((k - i : ℕ) : ℤ) := by
        have : m ≤ k - i := by omega
        exact_mod_cast this
      have hm' : (0 : ℤ) < (m : ℤ) := by exact_mod_cast hm
      have h2 : (m : ℤ) * 1000 ≤ (m : ℤ) * (f k - f i) := by nlinarith
      have h3 : (1000 : ℤ) ≤ f k - f i := (mul_le_mul_left hm').mp h2
      omega
    rw [h1]
    simp only [List.length_nil, Nat.zero_add]
    calc ((((List.range m).map (fun x => k + 1 - m + x)).map f).filter
            (fun d => decide (f k - 1000 < d))).length
        ≤ (((List.range m).map (fun x => k + 1 - m + x)).map f).length :=
          List.length_filter_le _ _
      _ = m := by simp

/-- The first `n + 1` timestamps, with the `n`-th appended. -/
theorem history_snoc (f : ℕ → ℤ) (n : ℕ) :
    (List.range n).map f ++ [f n] = (List.range (n + 1)).map f := by
  rw [List.range_succ, List.map_append]
  rfl

/-- The steady-state history is a non-decreasing list. -/
theorem history_sorted (m : ℕ) (hm : 0 < m) (f : ℕ → ℤ)
    (hs : ∀ i, 1000 ≤ (m : ℤ) * (f (i + 1) - f i)) (n : ℕ) :
    ((List.range n).map f).Sorted (· ≤ ·) := by
  refine List.Pairwise.map f ?_ (List.pairwise_lt_range n)
  intro a b hab
  exact steady_mono m hm f hs a b (le_of_lt hab)

/-- Steady-state timestamps are non-negative once the first one is. -/
theorem history_nonneg (m : ℕ) (hm : 0 < m) (f : ℕ → ℤ) (h0 : 0 ≤ f 0)
    (hs : ∀ i, 1000 ≤ (m : ℤ) * (f (i + 1) - f i)) (n : ℕ) :
    ∀ x ∈ (List.range n).map f, 0 ≤ x := by
  intro x hx
  rw [List.mem_map] at hx
  obtain ⟨i, _, rfl⟩ := hx
  exact le_trans h0 (steady_mono m hm f hs 0 i (Nat.zero_le i))

/-- Invariant of the steady-state run through `API._checkRateLimit`: every
call is admitted and the stored window is exactly the unexpired suffix of
the history. -/
theorem apiRun_steady_invariant (m : ℕ) (hm : 0 < m) (f : ℕ → ℤ) (h0 : 0 ≤ f 0)
    (hs : ∀ i, 1000 ≤ (m : ℤ) * (f (i + 1) - f i)) :
    ∀ n : ℕ,
      (apiRun (m : ℚ) ((List.range (n + 1)).map f) []).1 = List.replicate (n + 1) true ∧
      (apiRun (m : ℚ) ((List.range (n + 1)).map f) []).2 =
        ((List.range (n + 1)).map f).filter (fun d => decide (f n - 1000 < d)) := by
  intro n
  induction n with
  | zero =>
    have hr1 : (List.range 1).map f = [f 0] := by
      rw [List.range_succ]
      rfl
    rw [hr1]
    have hwin : apiWindow (f 0) [] = [f 0] := apiWindow_eq_pushed (f 0) [] (by simp)
    have hp0 : decide (f 0 - 1000 < f 0) = true := by
      simp only [decide_eq_true_eq]
      omega
    constructor
    · show [(apiCheckRateLimit (f 0) (m : ℚ) []).1] = [true]
      have : (apiCheckRateLimit (f 0) (m : ℚ) []).1 = decide (0 + 1 ≤ m) := by
        show decide (((apiWindow (f 0) []).length : ℚ) ≤ (m : ℚ)) = _
        rw [hwin]
        show decide (((1 : ℕ) : ℚ) ≤ (m : ℚ)) = _
        rw [decide_cast_le]
      rw [this, decide_eq_true (by omega : 0 + 1 ≤ m)]
    · show (apiRun (m : ℚ) [] (apiWindow (f 0) [])).2 = _
      show apiWindow (f 0) [] = _
      rw [hwin, List.filter_cons, hp0]
      rfl
  | succ n ih =>
    have hsnoc : (List.range (n + 2)).map f =
        (List.range (n + 1)).map f ++ [f (n + 1)] := (history_snoc f (n + 1)).symm
    have hWs : ((apiRun (m : ℚ) ((List.range (n + 1)).map f) []).2).Sorted (· ≤ ·) := by
      rw [ih.2]
      exact List.Pairwise.filter _ (history_sorted m hm f hs (n + 1))
    have hWn : ∀ x ∈ (apiRun (m : ℚ) ((List.range (n + 1)).map f) []).2, 0 ≤ x := by
      rw [ih.2]
      intro x hx
      exact history_nonneg m hm f h0 hs (n + 1) x (List.mem_filter.mp hx).1
    have hmono : f n ≤ f (n + 1) := steady_mono m hm f hs n (n + 1) (by omega)
    have hwin : apiWindow (f (n + 1)) ((apiRun (m : ℚ) ((List.range (n + 1)).map f) []).2) =
        ((List.range (n + 2)).map f).filter (fun d => decide (f (n + 1) - 1000 < d)) := by
      rw [apiWindow_sorted _ _ hWs hWn, ih.2, List.filter_filter]
      have hcongr : ((List.range (n + 1)).map f).filter
            (fun a => decide (f (n + 1) - 1000 < a) && decide (f n - 1000 < a)) =
          ((List.range (n + 1)).map f).filter (fun a => decide (f (n + 1) - 1000 < a)) := by
        refine List.filter_congr ?_
        intro x _
        by_cases hx : f (n + 1) - 1000 < x
        · have hx2 : f n - 1000 < x := by omega
          simp [hx, hx2]
        · simp [hx]
      rw [hcongr, hsnoc, List.filter_append]
      have hlast : ([f (n + 1)] : List Int).filter
          (fun d => decide (f (n + 1) - 1000 < d)) = [f (n + 1)] := by
        rw [List.filter_cons]
        rw [decide_eq_true (by omega : f (n + 1) - 1000 < f (n + 1))]
        rfl
      rw [hlast]
    have hdec : (apiCheckRateLimit (f (n + 1)) (m : ℚ)
        ((apiRun (m : ℚ) ((List.range (n + 1)).map f) []).2)).1 = true := by
      show decide (((apiWindow (f (n + 1))
          ((apiRun (m : ℚ) ((List.range (n + 1)).map f) []).2)).length : ℚ) ≤ (m : ℚ)) = _
      rw [hwin, decide_cast_le]
      exact decide_eq_true (steady_count m hm f hs (n + 1))
    constructor
    · rw [hsnoc, apiRun_append, ih.1]
      show List.replicate (n + 1) true ++
          [(apiCheckRateLimit (f (n + 1)) (m : ℚ)
             ((apiRun (m : ℚ) ((List.range (n + 1)).map f) []).2)).1] = _
      rw [hdec, ← List.replicate_succ']
    · rw [hsnoc, apiRun_append]
      show apiWindow (f (n + 1)) ((apiRun (m : ℚ) ((List.range (n + 1)).map f) []).2) = _
      rw [hwin, hsnoc]

/-- Steady-state run through `Poloniex._checkRateLimit`: every call is
admitted, since the returned Boolean is computed from the filtered copy. -/
theorem poloRun_steady (m : ℕ) (hm : 0 < m) (f : ℕ → ℤ)
    (hs : ∀ i, 1000 ≤ (m : ℤ) * (f (i + 1) - f i)) :
    ∀ n : ℕ, (poloRun (m : ℚ) ((List.range n).map f) []).1 = List.replicate n true := by
  intro n
  induction n with
  | zero => rfl
  | succ n ih =>
    rw [← history_snoc f n, poloRun_append, ih]
    have hW : (poloRun (m : ℚ) ((List.range n).map f) []).2 = (List.range n).map f := by
      rw [poloRun_window]
      rfl
    rw [hW]
    have hdec : (poloCheckRateLimit (f n) (m : ℚ) ((List.range n).map f)).1 = true := by
      show decide (((((List.range n).map f ++ [f n]).filter
          (fun d => decide (f n - 1000 < d))).length : ℚ) ≤ (m : ℚ)) = _
      rw [history_snoc f n, decide_cast_le]
      exact decide_eq_true (steady_count m hm f hs n)
    show List.replicate n true ++
        [(poloCheckRateLimit (f n) (m : ℚ) ((List.range n).map f)).1] = _
    rw [hdec, ← List.replicate_succ']

/-- C9 (confirmed): for every positive integer limit `m` and every sequence
of timestamps starting at a non-negative time whose consecutive spacing is
at least `1000 / m` milliseconds (for integer timestamps:
`m * (f (i+1) - f i) ≥ 1000`, which also forces the sequence to increase),
every check of an arbitrarily long run from the empty window is admitted, in
both implementations. -/
theorem checkRateLimit_steady_state_admission (m : ℕ) (hm : 0 < m) (f : ℕ → ℤ)
    (h0 : 0 ≤ f 0) (hs : ∀ i, 1000 ≤ (m : ℤ) * (f (i + 1) - f i)) (n : ℕ) :
    (poloRun (m : ℚ) ((List.range n).map f) []).1 = List.replicate n true ∧
    (apiRun (m : ℚ) ((List.range n).map f) []).1 = List.replicate n true := by
  constructor
  · exact poloRun_steady m hm f hs n
  · cases n with
    | zero => rfl
    | succ n => exact (apiRun_steady_invariant m hm f h0 hs n).1

/-- Witness for `checkRateLimit_steady_state_admission`: limit 2, calls
spaced 500 ms apart — never rejected. -/
theorem checkRateLimit_steady_state_admission_witness :
    (poloRun ((2 : ℕ) : ℚ) ((List.range 3).map (fun i => (500 : ℤ) * i)) []).1 =
      List.replicate 3 true ∧
    (apiRun ((2 : ℕ) : ℚ) ((List.range 3).map (fun i => (500 : ℤ) * i)) []).1 =
      List.replicate 3 true :=
  checkRateLimit_steady_state_admission 2 (by decide) (fun i => (500 : ℤ) * i)
    (by simp) (by intro i; push_cast; omega) 3

/-! Response parsing. -/

/-- Unfolding of `API._resErrorMessage` on a body that parsed as JSON. -/
theorem resErrorMessage_json (sc : Int) (raw : String) (v : Json) :
    resErrorMessage ⟨sc, raw, some v⟩ =
      if 299 < sc then Except.error (errText v raw)
      else if v.isNull = true then
        Except.error "TypeError: Cannot read properties of null (reading 'hasOwnProperty')"
      else if (jsonGet "error" v).isSome = true then Except.error (errText v raw)
      else Except.ok v := rfl

/-- Unfolding of `Poloniex._resParse` on a body that parsed as JSON. -/
theorem poloResParse_json (sc : Int) (raw : String) (v : Json) :
    poloResParse ⟨sc, raw, some v⟩ =
      if v.isNull = true then
        Except.error "TypeError: Cannot read properties of null (reading 'error')"
      else if jsTruthyOpt (jsonGet "error" v) = true then
        Except.error ("HTTP " ++ toString sc ++ " Returned error: " ++
          jsToString ((jsonGet "error" v).getD Json.null))
      else Except.ok v := rfl

/-- Unfolding of the error-message selection on a non-`null` value. -/
theorem errText_ne_null (v : Json) (raw : String) (hv : v.isNull = false) :
    errText v raw =
      if jsTruthyOpt (jsonGet "error" v) = true then
        jsToString ((jsonGet "error" v).getD Json.null)
      else if jsTruthyOpt (jsonGet "message" v) = true then
        jsToString ((jsonGet "message" v).getD Json.null)
      else raw := by
  cases v with
  | null => exact absurd hv (by simp [Json.isNull])
  | bool b => rfl
  | num q => rfl
  | str s => rfl
  | arr xs => rfl
  | obj fs => rfl

/-- The fallback object `{ error: response.data }` makes the selected error
message the raw body text, whether or not it is empty. -/
theorem errText_parse_failure (raw : String) :
    errText (Json.obj [("error", Json.str raw)]) raw = raw := by
  rw [errText_ne_null (Json.obj [("error", Json.str raw)]) raw rfl]
  by_cases hr : raw = ""
  · subst hr
    rfl
  · rw [if_pos]
    · rfl
    · show jsTruthyOpt (some (Json.str raw)) = true
      simp [jsTruthyOpt, jsTruthy, hr]

/-- A body that fails to parse is always rejected by `API._resErrorMessage`,
with the raw text as the message. -/
theorem resErrorMessage_parse_failure (sc : Int) (raw : String) :
    resErrorMessage ⟨sc, raw, none⟩ = .error raw := by
  have hrfl : resErrorMessage ⟨sc, raw, none⟩ =
      if 299 < sc then Except.error (errText (Json.obj [("error", Json.str raw)]) raw)
      else if (Json.obj [("error", Json.str raw)]).isNull = true then
        Except.error "TypeError: Cannot read properties of null (reading 'hasOwnProperty')"
      else if (jsonGet "error" (Json.obj [("error", Json.str raw)])).isSome = true then
        Except.error (errText (Json.obj [("error", Json.str raw)]) raw)
      else Except.ok (Json.obj [("error", Json.str raw)]) := rfl
  rw [hrfl, errText_parse_failure]
  have hsome : (jsonGet "error" (Json.obj [("error", Json.str raw)])).isSome = true := rfl
  by_cases hsc : 299 < sc
  · rw [if_pos hsc]
  · rw [if_neg hsc, if_neg (by simp [Json.isNull]), if_pos hsome]

/-- The wrapped form of the parse failure in `API._resJsonParse`. -/
theorem resJsonParse_parse_failure (name : String) (sc : Int) (raw : String) :
    resJsonParse name ⟨sc, raw, none⟩ =
      .error ("(" ++ name ++ ") HTTP " ++ toString sc ++ " Returned error: " ++ raw) := by
  unfold resJsonParse
  rw [resErrorMessage_parse_failure]

/-- C3, counterexample: a status code outside [200, 299] whose JSON body has
no `error` field parses as success — status 100 in the shared API parser
(only `statusCode > 299` is checked) and status 404 in the Poloniex parser
(the status code is never checked at all). -/
theorem resParse_success_despite_non2xx_status :
    resErrorMessage ⟨100, "\x7b\"foo\":\"bar\"\x7d", some (.obj [("foo", .str "bar")])⟩ =
      .ok (.obj [("foo", .str "bar")]) ∧
    poloResParse ⟨404, "\x7b\"foo\":\"bar\"\x7d", some (.obj [("foo", .str "bar")])⟩ =
      .ok (.obj [("foo", .str "bar")]) ∧
    ¬(200 ≤ (100 : Int) ∧ (100 : Int) ≤ 299) ∧ ¬(200 ≤ (404 : Int) ∧ (404 : Int) ≤ 299) :=
  ⟨rfl, rfl, by decide, by decide⟩

/-- C3 (amended): for a response whose body parses as JSON (and is not the
JSON literal `null`, on which the JavaScript property accesses throw), the
shared API parser rejects exactly when the status exceeds 299 or the body
has an `error` field — a status below 200 alone is not an error — while the
Poloniex parser ignores the status code entirely and rejects exactly when
the `error` field is truthy.  When a truthy `error` field is present, the
reported message carries that structured field rather than the raw text. -/
theorem resParse_error_characterization (sc : Int) (raw : String) (v : Json)
    (hv : v ≠ Json.null) :
    ((∃ e, resErrorMessage ⟨sc, raw, some v⟩ = .error e) ↔
        (299 < sc ∨ (jsonGet "error" v).isSome = true)) ∧
    ((∃ e, poloResParse ⟨sc, raw, some v⟩ = .error e) ↔
        jsTruthyOpt (jsonGet "error" v) = true) ∧
    (∀ e, jsonGet "error" v = some e → jsTruthy e = true →
        resErrorMessage ⟨sc, raw, some v⟩ = .error (jsToString e) ∧
        poloResParse ⟨sc, raw, some v⟩ =
          .error ("HTTP " ++ toString sc ++ " Returned error: " ++ jsToString e)) := by
  have hnull : v.isNull = false := by
    cases v with
    | null => exact absurd rfl hv
    | bool b => rfl
    | num q => rfl
    | str s => rfl
    | arr xs => rfl
    | obj fs => rfl
  refine ⟨?_, ?_, ?_⟩
  · rw [resErrorMessage_json]
    by_cases hsc : 299 < sc
    · rw [if_pos hsc]
      exact ⟨fun _ => Or.inl hsc, fun _ => ⟨_, rfl⟩⟩
    · rw [if_neg hsc, if_neg (by simp [hnull])]
      by_cases herr : (jsonGet "error" v).isSome = true
      · rw [if_pos herr]
        exact ⟨fun _ => Or.inr herr, fun _ => ⟨_, rfl⟩⟩
      · rw [if_neg herr]
        constructor
        · rintro ⟨e, he⟩
          exact absurd he (by simp)
        · intro h
          rcases h with h | h
          · exact absurd h hsc
          · exact absurd h herr
  · rw [poloResParse_json, if_neg (by simp [hnull])]
    by_cases herr : jsTruthyOpt (jsonGet "error" v) = true
    · rw [if_pos herr]
      exact ⟨fun _ => herr, fun _ => ⟨_, rfl⟩⟩
    · rw [if_neg herr]
      constructor
      · rintro ⟨e, he⟩
        exact absurd he (by simp)
      · intro h
        exact absurd h herr
  · intro e he htr
    have hsome : (jsonGet "error" v).isSome = true := by
      rw [he]
      rfl
    have htruthy : jsTruthyOpt (jsonGet "error" v) = true := by
      rw [he]
      exact htr
    have hmsg : errText v raw = jsToString e := by
      rw [errText_ne_null v raw hnull, he, if_pos]
      · rfl
      · exact htr
    constructor
    · rw [resErrorMessage_json]
      by_cases hsc : 299 < sc
      · rw [if_pos hsc, hmsg]
      · rw [if_neg hsc, if_neg (by simp [hnull]), if_pos hsome, hmsg]
    · rw [poloResParse_json, if_neg (by simp [hnull]), if_pos htruthy, he]
      rfl

/-- Witness for `resParse_error_characterization` at a concrete object whose
`error` field is `"X"`. -/
theorem resParse_error_characterization_witness :
    (∃ e, resErrorMessage
        ⟨200, "\x7b\"error\":\"X\"\x7d", some (.obj [("error", .str "X")])⟩ = .error e) ↔
      (299 < (200 : Int) ∨
        (jsonGet "error" (.obj [("error", .str "X")])).isSome = true) :=
  (resParse_error_characterization 200 "\x7b\"error\":\"X\"\x7d"
    (.obj [("error", .str "X")]) (fun h => Json.noConfusion h)).1

/-- C8 (confirmed): (1) a 200 status whose body is `{"error":"X"}` is
rejected by both parsers with a message containing `X`; (2) a 200 status
with body `{"foo":"bar"}` succeeds with that object as the value; (3) a body
that is not valid JSON is rejected under any status code with a message
containing the raw body text. -/
theorem response_parsing_cases :
    (∃ a b, poloResParse ⟨200, "\x7b\"error\":\"X\"\x7d", some (.obj [("error", .str "X")])⟩ =
        .error (a ++ "X" ++ b)) ∧
    (∀ name : String, ∃ a b,
        resJsonParse name ⟨200, "\x7b\"error\":\"X\"\x7d", some (.obj [("error", .str "X")])⟩ =
          .error (a ++ "X" ++ b)) ∧
    (poloResParse ⟨200, "\x7b\"foo\":\"bar\"\x7d", some (.obj [("foo", .str "bar")])⟩ =
        .ok (.obj [("foo", .str "bar")])) ∧
    (∀ name : String,
        resJsonParse name ⟨200, "\x7b\"foo\":\"bar\"\x7d", some (.obj [("foo", .str "bar")])⟩ =
          .ok (.obj [("foo", .str "bar")])) ∧
    (∀ (sc : Int) (raw : String), ∃ a b,
        poloResParse ⟨sc, raw, none⟩ = .error (a ++ raw ++ b)) ∧
    (∀ (name : String) (sc : Int) (raw : String), ∃ a b,
        resJsonParse name ⟨sc, raw, none⟩ = .error (a ++ raw ++ b)) := by
  refine ⟨⟨"HTTP 200 Returned error: ", "", rfl⟩, ?_, rfl, fun name => rfl, ?_, ?_⟩
  · intro name
    refine ⟨"(" ++ name ++ ") HTTP " ++ toString (200 : Int) ++ " Returned error: ", "", ?_⟩
    rw [String.append_empty]
    rfl
  · intro sc raw
    refine ⟨"HTTP " ++ toString sc ++ " Returned error: ", "", ?_⟩
    rw [String.append_empty]
    rfl
  · intro name sc raw
    refine ⟨"(" ++ name ++ ") HTTP " ++ toString sc ++ " Returned error: ", "", ?_⟩
    rw [String.append_empty, resJsonParse_parse_failure]

/-- C10 (confirmed): the request prepared by `Bitfinex._post` is identical
for every value of the caller-supplied query parameters; its transmitted
body is exactly the JSON serialization of the request path and the nonce
alone, the `X-Bfx-Payload` header is the base64 encoding of that body, the
HMAC-SHA384 signature is computed over exactly that base64 payload keyed by
the secret, and the `Content-Type` header declares
`application/x-www-form-urlencoded` even though the body is JSON. -/
theorem bitfinexPost_body_payload_signature
    (c : BfxClient) (ep pa : String) (q1 q2 : List (String × String)) (ts : Int) :
    bitfinexPost c ep pa q1 ts = bitfinexPost c ep pa q2 ts ∧
    (∀ (req : BfxRequest) (c' : BfxClient),
       bitfinexPost c ep pa q1 ts = (.ok req, c') →
       req.body = bfxBody (ep ++ pa) req.nonce ∧
       req.payload = base64Encode req.body ∧
       req.signatureMessage = req.payload ∧
       req.signatureKey = c.secret.getD "" ∧
       req.contentType = "application/x-www-form-urlencoded") := by
  constructor
  · rfl
  · intro req c' h
    simp only [bitfinexPost] at h
    split at h
    · injection h with h1 h2
      exact Except.noConfusion h1
    · split at h
      · injection h with h1 h2
        exact Except.noConfusion h1
      · injection h with h1 h2
        injection h1 with h1
        subst h1
        exact ⟨rfl, rfl, rfl, rfl, rfl⟩

/-- Witness for `bitfinexPost_body_payload_signature`: a concrete admitted
call, with the payload recomputed from the body. -/
theorem bitfinexPost_body_payload_signature_witness :
    ∃ (req : BfxRequest) (c' : BfxClient),
      bitfinexPost ⟨some "key", some "sec", 6, []⟩ "/v1/" "balances" [("k", "v")] 1000 =
        (.ok req, c') ∧
      req.payload = base64Encode req.body ∧
      req.contentType = "application/x-www-form-urlencoded" := by
  refine ⟨_, _, rfl, ?_, ?_⟩
  · exact ((bitfinexPost_body_payload_signature ⟨some "key", some "sec", 6, []⟩ "/v1/"
      "balances" [("k", "v")] [("k", "v")] 1000).2 _ _ rfl).2.1
  · exact ((bitfinexPost_body_payload_signature ⟨some "key", some "sec", 6, []⟩ "/v1/"
      "balances" [("k", "v")] [("k", "v")] 1000).2 _ _ rfl).2.2.2.2

end Crypto
